import Mathlib

/-!
Verification of the AppSync JSON metadata visitor
(packages/amplify-codegen-appsync-model-plugin/src/visitors/appsync-json-metadata-visitor.ts).

The visitor turns an already populated model and enum registry into a JSON
serializable metadata document and renders it in one of three textual target
modes. The development below is a shallow embedding of that file: JavaScript
records are association lists in insertion order, JavaScript property
assignment is recordInsert (replace in place or append), and the external
collaborators of the visitor (naming functions, version computation, the
pluralization and case conversion utilities) are carried in a VisitorEnv
structure, since the source reads them from the base visitor class.
-/

namespace AmplifyJSONVisitor

/-- JSON values as produced and consumed by the visitor. The emitted metadata
document only ever contains strings, booleans, arrays and objects (directive
arguments are free form JSON and are modelled by this same type). Object
member lists are kept in insertion order, as JavaScript objects do. -/
inductive Json where
  | null : Json
  | bool (b : Bool) : Json
  | str (s : String) : Json
  | arr (items : List Json) : Json
  | obj (members : List (String × Json)) : Json
deriving Repr

/-- JavaScript record update obj[k] = v: if the key is present its value is
replaced in place (keeping the original key position), otherwise the new
pair is appended at the end, matching object insertion order semantics. -/
def recordInsert {α : Type} : List (String × α) → String → α → List (String × α)
  | [], k, v => [(k, v)]
  | (k0, v0) :: rest, k, v =>
    if k0 = k then (k0, v) :: rest else (k0, v0) :: recordInsert rest k v

/-- JavaScript record read obj[k]: the value at the first (and with
recordInsert, only) occurrence of the key. -/
def recordGet {α : Type} : List (String × α) → String → Option α
  | [], _ => none
  | (k0, v0) :: rest, k => if k0 = k then some v0 else recordGet rest k

/-- Modelled from the spec: the connection kinds of the relation inference
stage (process-connections is outside the packaged sources; the spec lists
has-one, has-many and belongs-to style ownership as the relation kinds). -/
inductive CodeGenConnectionType where
  | HAS_ONE : CodeGenConnectionType
  | BELONGS_TO : CodeGenConnectionType
  | HAS_MANY : CodeGenConnectionType
deriving DecidableEq, Repr

/-- Modelled from the spec: the string tag of each connection kind, used as
the connectionType property value. -/
def CodeGenConnectionType.tag : CodeGenConnectionType → String
  | .HAS_ONE => "HAS_ONE"
  | .BELONGS_TO => "BELONGS_TO"
  | .HAS_MANY => "HAS_MANY"

mutual
/-- A field of the normalized model representation: original name, raw type
name, nullability, list flag, and optional relation information resolved by
the connection directive processing. -/
inductive CodeGenField where
  | mk (name : String) (type : String) (isNullable : Bool) (isList : Bool)
       (connectionInfo : Option CodeGenFieldConnection) : CodeGenField

/-- Modelled from the spec: relation information on a field. For has-many
and has-one relations the field on the other side of the relation is stored
(associatedWith); for the remaining kind the stored connection target name
identifies the owning side column directly. -/
inductive CodeGenFieldConnection where
  | mk (kind : CodeGenConnectionType) (associatedWith : CodeGenField)
       (targetName : String) : CodeGenFieldConnection
end

def CodeGenField.name : CodeGenField → String
  | .mk n _ _ _ _ => n

def CodeGenField.type : CodeGenField → String
  | .mk _ t _ _ _ => t

def CodeGenField.isNullable : CodeGenField → Bool
  | .mk _ _ n _ _ => n

def CodeGenField.isList : CodeGenField → Bool
  | .mk _ _ _ l _ => l

def CodeGenField.connectionInfo : CodeGenField → Option CodeGenFieldConnection
  | .mk _ _ _ _ c => c

def CodeGenFieldConnection.kind : CodeGenFieldConnection → CodeGenConnectionType
  | .mk k _ _ => k

def CodeGenFieldConnection.associatedWith : CodeGenFieldConnection → CodeGenField
  | .mk _ a _ => a

def CodeGenFieldConnection.targetName : CodeGenFieldConnection → String
  | .mk _ _ t => t

/-- A directive attached to a model, with its arguments kept verbatim. -/
structure CodeGenDirective where
  name : String
  arguments : List (String × Json)

/-- A model of the normalized representation: original schema name, its
directives and its fields. -/
structure CodeGenModel where
  name : String
  directives : List CodeGenDirective
  fields : List CodeGenField

/-- An enum of the normalized representation: name and its value record
(JavaScript record from value label to value, read with Object.values). -/
structure CodeGenEnum where
  name : String
  values : List (String × String)

/-- The five built in GraphQL scalar tags recognized by the visitor, the
JSONGraphQLScalarType string enum of the source. -/
inductive JSONGraphQLScalarType where
  | ID
  | String
  | Int
  | Float
  | Boolean
deriving DecidableEq, Repr

/-- The string value of a scalar tag (the string enum values coincide with
the member names in the source). -/
def scalarValue : JSONGraphQLScalarType → String
  | .ID => "ID"
  | .String => "String"
  | .Int => "Int"
  | .Float => "Float"
  | .Boolean => "Boolean"

/-- The membership test gqlType in JSONGraphQLScalarType of the source: a
string enum object has exactly its five member names as keys. -/
def scalarOfString (s : String) : Option JSONGraphQLScalarType :=
  if s = "ID" then some .ID
  else if s = "String" then some .String
  else if s = "Int" then some .Int
  else if s = "Float" then some .Float
  else if s = "Boolean" then some .Boolean
  else none

/-- The type stored on an emitted field: a scalar tag, an enum reference or
a model reference (JSONModelFieldType of the source). -/
inductive JSONModelFieldType where
  | scalar (s : JSONGraphQLScalarType) : JSONModelFieldType
  | enum (name : String) : JSONModelFieldType
  | model (name : String) : JSONModelFieldType
deriving DecidableEq, Repr

/-- An attribute entry of the emitted document (JSONModelAttribute): a type
tag plus a free form properties record. -/
structure JSONModelAttribute where
  type : String
  properties : List (String × Json)

/-- An emitted field entry (JSONModelField), fields in the insertion order
of the object literal of the source. -/
structure JSONModelField where
  name : String
  targetName : String
  isArray : Bool
  type : JSONModelFieldType
  isRequired : Bool
  attributes : List JSONModelAttribute

/-- An emitted model entry (JSONSchemaModel), fields in the insertion order
of the object literal of the source (syncable comes first there). -/
structure JSONSchemaModel where
  syncable : Bool
  name : String
  targetName : String
  pluralTargetName : String
  attributes : List JSONModelAttribute
  fields : List (String × JSONModelField)

/-- An emitted enum entry (JSONSchemaEnum). -/
structure JSONSchemaEnum where
  name : String
  values : List String

/-- The emitted metadata document (JSONSchema of the source). -/
structure JSONSchema where
  models : List (String × JSONSchemaModel)
  enums : List (String × JSONSchemaEnum)
  version : String

/-- The external collaborators and registries the visitor reads, per the
external interface section of the spec: the selected models accessor, the
enum registry, the three naming functions, the version computation, and the
pluralization and case conversion utilities of the imported libraries. -/
structure VisitorEnv where
  getSelectedModels : List (String × CodeGenModel)
  enumMap : List (String × CodeGenEnum)
  getModelName : CodeGenModel → String
  getEnumName : CodeGenEnum → String
  getFieldName : CodeGenField → String
  computeVersion : String
  plural : String → String
  upperCaseFirst : String → String

/-- getType of the source: scalar membership is tested first, then enum
registry membership, otherwise the raw name is taken as a model reference. -/
def getType (env : VisitorEnv) (gqlType : String) : JSONModelFieldType :=
  match scalarOfString gqlType with
  | some s => .scalar s
  | none =>
    match recordGet env.enumMap gqlType with
    | some e => .enum e.name
    | none => .model gqlType

/-- pluralizeModelName of the source: plural(upperCaseFirst(model.name)),
applied to the original schema name of the model. -/
def pluralizeModelName (env : VisitorEnv) (model : CodeGenModel) : String :=
  env.plural (env.upperCaseFirst model.name)

/-- generateFieldAttributes of the source: one connection attribute when the
field carries relation information, otherwise the empty list. -/
def generateFieldAttributes (env : VisitorEnv) (field : CodeGenField) :
    List JSONModelAttribute :=
  match field.connectionInfo with
  | none => []
  | some ci =>
    [{ type := "connection",
       properties := ("connectionType", Json.str ci.kind.tag) ::
         (match ci.kind with
          | .HAS_MANY => [("associatedWith", Json.str (env.getFieldName ci.associatedWith))]
          | .HAS_ONE => [("associatedWith", Json.str (env.getFieldName ci.associatedWith))]
          | .BELONGS_TO => [("targetName", Json.str ci.targetName)]) }]

/-- generateModelAttributes of the source: one attribute per directive, with
the directive arguments copied verbatim. -/
def generateModelAttributes (model : CodeGenModel) : List JSONModelAttribute :=
  model.directives.map (fun d => { type := d.name, properties := d.arguments })

/-- The field entry built inside the fields reduce of generateMetaData. -/
def fieldEntry (env : VisitorEnv) (field : CodeGenField) : JSONModelField :=
  { name := env.getFieldName field,
    targetName := field.name,
    isArray := field.isList,
    type := getType env field.type,
    isRequired := !field.isNullable,
    attributes := generateFieldAttributes env field }

/-- The model entry built inside the selected models loop of
generateMetaData. -/
def modelEntry (env : VisitorEnv) (obj : CodeGenModel) : JSONSchemaModel :=
  { syncable := true,
    name := env.getModelName obj,
    targetName := obj.name,
    pluralTargetName := pluralizeModelName env obj,
    attributes := generateModelAttributes obj,
    fields := obj.fields.foldl
      (fun acc f => recordInsert acc (env.getFieldName f) (fieldEntry env f)) [] }

/-- generateMetaData of the source: models keyed by the original schema
name, enums keyed by the enum display name, version from the external
version computation. -/
def generateMetaData (env : VisitorEnv) : JSONSchema :=
  { models := env.getSelectedModels.foldl
      (fun acc p => recordInsert acc p.2.name (modelEntry env p.2)) [],
    enums := env.enumMap.foldl
      (fun acc p =>
        recordInsert acc (env.getEnumName p.2)
          { name := p.1, values := p.2.values.map Prod.snd }) [],
    version := env.computeVersion }

/-- A lowercase hexadecimal digit, as used by the JSON string escaper for
control characters. -/
def hexDigit (n : Nat) : Char :=
  if n < 10 then Char.ofNat (48 + n) else Char.ofNat (87 + n)

/-- The escape sequence JSON.stringify emits for one character of a string:
quote and backslash are escaped, the five short control escapes are used
where they exist, any other control character becomes a unicode escape, and
every other character is copied verbatim. -/
def escChar (c : Char) : List Char :=
  if c = '"' then ['\\', '"']
  else if c = '\\' then ['\\', '\\']
  else if c = '\x08' then ['\\', 'b']
  else if c = '\x0C' then ['\\', 'f']
  else if c = '\n' then ['\\', 'n']
  else if c = '\r' then ['\\', 'r']
  else if c = '\t' then ['\\', 't']
  else if c.toNat < 32 then
    ['\\', 'u', '0', '0', hexDigit (c.toNat / 16), hexDigit (c.toNat % 16)]
  else [c]

/-- Escape every character of a string body. -/
def escBody : List Char → List Char
  | [] => []
  | c :: cs => escChar c ++ escBody cs

/-- A JSON string literal: double quotes around the escaped body. -/
def quoteL (s : String) : List Char :=
  '"' :: (escBody s.data ++ ['"'])

/-- The four space gap of JSON.stringify(x, null, 4). -/
def gapL : List Char := [' ', ' ', ' ', ' ']

mutual
/-- JSON.stringify(x, null, 4) at a given accumulated indentation, as a
character list: empty arrays and objects print compactly, nonempty ones put
every element on its own line at one more gap of indentation. -/
def renderL : List Char → Json → List Char
  | _, .null => ['n', 'u', 'l', 'l']
  | _, .bool true => ['t', 'r', 'u', 'e']
  | _, .bool false => ['f', 'a', 'l', 's', 'e']
  | _, .str s => quoteL s
  | _, .arr [] => ['[', ']']
  | ind, .arr (x :: xs) =>
      '[' :: '\n' :: (renderItems (ind ++ gapL) (x :: xs) ++ ('\n' :: (ind ++ [']'])))
  | _, .obj [] => ['{', '}']
  | ind, .obj (m :: ms) =>
      '{' :: '\n' :: (renderMembers (ind ++ gapL) (m :: ms) ++ ('\n' :: (ind ++ ['}'])))

/-- The lines of a nonempty array body, separated by a comma and a line
break, each line starting at the given indentation. -/
def renderItems : List Char → List Json → List Char
  | _, [] => []
  | ind, [x] => ind ++ renderL ind x
  | ind, x :: y :: ys =>
      ind ++ (renderL ind x ++ (',' :: '\n' :: renderItems ind (y :: ys)))

/-- The lines of a nonempty object body: quoted key, colon, one space, the
value, separated by a comma and a line break. -/
def renderMembers : List Char → List (String × Json) → List Char
  | _, [] => []
  | ind, [(k, v)] => ind ++ (quoteL k ++ (':' :: ' ' :: renderL ind v))
  | ind, (k, v) :: m :: ms =>
      ind ++ (quoteL k ++ (':' :: ' ' :: renderL ind v) ++
        (',' :: '\n' :: renderMembers ind (m :: ms)))
end

/-- JSON.stringify(x, null, 4) as a string, starting at zero indentation. -/
def Json.render (j : Json) : String := String.mk (renderL [] j)

/-- The JSON value of an attribute entry. -/
def attributeToJson (a : JSONModelAttribute) : Json :=
  .obj [("type", .str a.type), ("properties", .obj a.properties)]

/-- The JSON value of a field type: scalars serialize as their bare tag,
enum and model references as one member objects. -/
def fieldTypeToJson : JSONModelFieldType → Json
  | .scalar s => .str (scalarValue s)
  | .enum n => .obj [("enum", .str n)]
  | .model n => .obj [("model", .str n)]

/-- The JSON value of a field entry, members in insertion order. -/
def fieldToJson (f : JSONModelField) : Json :=
  .obj [("name", .str f.name),
        ("targetName", .str f.targetName),
        ("isArray", .bool f.isArray),
        ("type", fieldTypeToJson f.type),
        ("isRequired", .bool f.isRequired),
        ("attributes", .arr (f.attributes.map attributeToJson))]

/-- The JSON value of a model entry, members in insertion order. -/
def schemaModelToJson (m : JSONSchemaModel) : Json :=
  .obj [("syncable", .bool m.syncable),
        ("name", .str m.name),
        ("targetName", .str m.targetName),
        ("pluralTargetName", .str m.pluralTargetName),
        ("attributes", .arr (m.attributes.map attributeToJson)),
        ("fields", .obj (m.fields.map (fun p => (p.1, fieldToJson p.2))))]

/-- The JSON value of an enum entry. -/
def schemaEnumToJson (e : JSONSchemaEnum) : Json :=
  .obj [("name", .str e.name), ("values", .arr (e.values.map Json.str))]

/-- The JSON value of the whole metadata document. -/
def schemaToJson (s : JSONSchema) : Json :=
  .obj [("models", .obj (s.models.map (fun p => (p.1, schemaModelToJson p.2)))),
        ("enums", .obj (s.enums.map (fun p => (p.1, schemaEnumToJson p.2)))),
        ("version", .str s.version)]

/-- generateTypeScriptMetaData of the source: an import line, a blank line,
and the typed export of the serialized document. -/
def generateTypeScriptMetaData (env : VisitorEnv) : String :=
  "import { Schema } from \"@aws-amplify/datastore\";\n\nexport const schema: Schema = "
    ++ Json.render (schemaToJson (generateMetaData env)) ++ ";"

/-- generateJavaScriptMetaData of the source: only the untyped export of the
serialized document. -/
def generateJavaScriptMetaData (env : VisitorEnv) : String :=
  "export const schema = " ++ Json.render (schemaToJson (generateMetaData env)) ++ ";"

/-- generateTypeDeclaration of the source: a fixed three line stub that does
not look at the metadata at all. -/
def generateTypeDeclaration : String :=
  "import { Schema } from '@aws-amplify/datastore';\n\nexport declare const schema: Schema;"

/-- generate of the source: dispatch on the configured metadata target, or
an unsupported target error naming the offending value. The connection
directive processing that generate runs first is external and mutates the
registries before any branch is taken, so the embedding receives the
already processed environment. -/
def generate (metadataTarget : String) (env : VisitorEnv) : Except String String :=
  if metadataTarget = "typescript" then .ok (generateTypeScriptMetaData env)
  else if metadataTarget = "javascript" then .ok (generateJavaScriptMetaData env)
  else if metadataTarget = "typeDeclaration" then .ok generateTypeDeclaration
  else .error ("Unsupported metadataTarget " ++ metadataTarget ++
    ". Supported targets are javascript and typescript")

/-- JSON insignificant whitespace. -/
def isWs (c : Char) : Bool :=
  c = ' ' || c = '\n' || c = '\t' || c = '\r'

/-- Drop leading JSON whitespace. -/
def skipWs : List Char → List Char
  | [] => []
  | c :: cs => if isWs c then skipWs cs else c :: cs

/-- Consume an expected literal tail, returning the remaining input. -/
def expectL : List Char → List Char → Option (List Char)
  | [], l => some l
  | _ :: _, [] => none
  | p :: ps, c :: cs => if c = p then expectL ps cs else none

/-- The value of one hexadecimal digit, either case. -/
def hexVal (c : Char) : Option Nat :=
  if 48 ≤ c.toNat ∧ c.toNat ≤ 57 then some (c.toNat - 48)
  else if 97 ≤ c.toNat ∧ c.toNat ≤ 102 then some (c.toNat - 87)
  else if 65 ≤ c.toNat ∧ c.toNat ≤ 70 then some (c.toNat - 55)
  else none

/-- The value of a four digit hexadecimal escape. -/
def hex4 (d1 d2 d3 d4 : Char) : Option Nat :=
  match hexVal d1, hexVal d2, hexVal d3, hexVal d4 with
  | some a, some b, some c, some d => some (((a * 16 + b) * 16 + c) * 16 + d)
  | _, _, _, _ => none

/-- Parse the body of a JSON string after the opening quote, accumulating
decoded characters, and return the decoded string with the input remaining
after the closing quote. Unescaped control characters are rejected, as in
the JSON grammar. -/
def parseStringBody : List Char → List Char → Option (String × List Char)
  | '"' :: cs, acc => some (String.mk acc, cs)
  | '\\' :: '"' :: cs, acc => parseStringBody cs (acc ++ ['"'])
  | '\\' :: '\\' :: cs, acc => parseStringBody cs (acc ++ ['\\'])
  | '\\' :: '/' :: cs, acc => parseStringBody cs (acc ++ ['/'])
  | '\\' :: 'b' :: cs, acc => parseStringBody cs (acc ++ ['\x08'])
  | '\\' :: 'f' :: cs, acc => parseStringBody cs (acc ++ ['\x0C'])
  | '\\' :: 'n' :: cs, acc => parseStringBody cs (acc ++ ['\n'])
  | '\\' :: 'r' :: cs, acc => parseStringBody cs (acc ++ ['\r'])
  | '\\' :: 't' :: cs, acc => parseStringBody cs (acc ++ ['\t'])
  | '\\' :: 'u' :: d1 :: d2 :: d3 :: d4 :: cs, acc =>
    (match hex4 d1 d2 d3 d4 with
     | some n => parseStringBody cs (acc ++ [Char.ofNat n])
     | none => none)
  | '\\' :: _, _ => none
  | c :: cs, acc => if c.toNat < 32 then none else parseStringBody cs (acc ++ [c])
  | [], _ => none

mutual
/-- Parse one JSON value (of the number free fragment the visitor emits):
skip whitespace, then dispatch on the first character. The fuel argument
only bounds the nesting of recursive parses; parseJson supplies an amount
that is always sufficient. -/
def parseValue : Nat → List Char → Option (Json × List Char)
  | 0, _ => none
  | fuel + 1, cs =>
    match skipWs cs with
    | [] => none
    | c :: rest =>
      if c = 'n' then (expectL ['u', 'l', 'l'] rest).map (fun r => (Json.null, r))
      else if c = 't' then (expectL ['r', 'u', 'e'] rest).map (fun r => (Json.bool true, r))
      else if c = 'f' then (expectL ['a', 'l', 's', 'e'] rest).map (fun r => (Json.bool false, r))
      else if c = '"' then (parseStringBody rest []).map (fun p => (Json.str p.1, p.2))
      else if c = '[' then
        match skipWs rest with
        | ']' :: r => some (Json.arr [], r)
        | _ => parseItems fuel rest []
      else if c = '{' then
        match skipWs rest with
        | '}' :: r => some (Json.obj [], r)
        | _ => parseMembers fuel rest []
      else none

/-- Parse the elements of a nonempty array after the opening bracket,
accumulating parsed elements. -/
def parseItems : Nat → List Char → List Json → Option (Json × List Char)
  | 0, _, _ => none
  | fuel + 1, cs, acc =>
    match parseValue fuel cs with
    | some (j, rest) =>
      match skipWs rest with
      | ',' :: r => parseItems fuel r (acc ++ [j])
      | ']' :: r => some (Json.arr (acc ++ [j]), r)
      | _ => none
    | none => none

/-- Parse the members of a nonempty object after the opening brace,
accumulating parsed members. -/
def parseMembers : Nat → List Char → List (String × Json) →
    Option (Json × List Char)
  | 0, _, _ => none
  | fuel + 1, cs, acc =>
    match skipWs cs with
    | '"' :: rest =>
      match parseStringBody rest [] with
      | some (k, r1) =>
        match skipWs r1 with
        | ':' :: r2 =>
          match parseValue fuel r2 with
          | some (v, r3) =>
            match skipWs r3 with
            | ',' :: r4 => parseMembers fuel r4 (acc ++ [(k, v)])
            | '}' :: r4 => some (Json.obj (acc ++ [(k, v)]), r4)
            | _ => none
          | none => none
        | _ => none
      | none => none
    | _ => none
end

/-- JSON.parse on a whole input string (of the number free fragment the
visitor emits): one value and nothing but whitespace around it. The fuel
given to parseValue is one more than the input length, which the round trip
lemmas show is always enough for rendered documents. -/
def parseJson (s : String) : Option Json :=
  match parseValue (s.data.length + 1) s.data with
  | some (j, rest) => if skipWs rest = [] then some j else none
  | none => none

/-- The constructor line of the source, rawConfig.metadataTarget or the
string javascript: an absent option and the empty string are the only falsy
values a string typed option can take, and both fall back to javascript. -/
def resolveMetadataTarget (raw : Option String) : String :=
  match raw with
  | none => "javascript"
  | some s => if s = "" then "javascript" else s

theorem recordGet_insert_self {α : Type} (m : List (String × α)) (k : String) (v : α) :
    recordGet (recordInsert m k v) k = some v := by
  induction m with
  | nil => simp [recordInsert, recordGet]
  | cons p rest ih =>
    by_cases h : p.1 = k
    · cases p
      simp_all [recordInsert, recordGet]
    · cases p
      simp_all [recordInsert, recordGet]

theorem recordGet_insert_ne {α : Type} (m : List (String × α)) (k k2 : String) (v : α)
    (h : k ≠ k2) : recordGet (recordInsert m k v) k2 = recordGet m k2 := by
  induction m with
  | nil => simp [recordInsert, recordGet, h]
  | cons p rest ih =>
    by_cases h0 : p.1 = k
    · cases p
      simp_all [recordInsert, recordGet]
    · cases p
      simp_all [recordInsert, recordGet]

theorem foldl_recordInsert_skip {α β : Type} (key : α → String) (val : α → β)
    (l : List α) : ∀ (acc : List (String × β)) (k : String), k ∉ l.map key →
    recordGet (l.foldl (fun a p => recordInsert a (key p) (val p)) acc) k
      = recordGet acc k := by
  induction l with
  | nil => intro acc k _; rfl
  | cons x xs ih =>
    intro acc k hk
    simp only [List.map_cons, List.mem_cons] at hk
    push_neg at hk
    simp only [List.foldl_cons]
    rw [ih _ k hk.2, recordGet_insert_ne _ _ _ _ (Ne.symm hk.1)]

theorem foldl_recordInsert_lookup {α β : Type} (key : α → String) (val : α → β)
    (l : List α) : ∀ (acc : List (String × β)) (x : α), x ∈ l → (l.map key).Nodup →
    recordGet (l.foldl (fun a p => recordInsert a (key p) (val p)) acc) (key x)
      = some (val x) := by
  induction l with
  | nil => intro _ x hx _; cases hx
  | cons y ys ih =>
    intro acc x hx hnd
    simp only [List.map_cons, List.nodup_cons] at hnd
    rcases List.mem_cons.mp hx with rfl | hmem
    · simp only [List.foldl_cons]
      rw [foldl_recordInsert_skip key val ys _ _ hnd.1, recordGet_insert_self]
    · simp only [List.foldl_cons]
      exact ih _ x hmem hnd.2

/-- A list of nothing but JSON whitespace. -/
def wsOnly (w : List Char) : Prop := ∀ c ∈ w, isWs c = true

theorem wsOnly_nil : wsOnly [] := by intro c hc; cases hc

theorem wsOnly_append {a b : List Char} (ha : wsOnly a) (hb : wsOnly b) :
    wsOnly (a ++ b) := by
  intro c hc
  rcases List.mem_append.mp hc with h | h
  · exact ha c h
  · exact hb c h

theorem wsOnly_gapL : wsOnly gapL := by
  intro c hc
  fin_cases hc <;> rfl

theorem wsOnly_cons {c : Char} {w : List Char} (hc : isWs c = true) (hw : wsOnly w) :
    wsOnly (c :: w) := by
  intro d hd
  rcases List.mem_cons.mp hd with rfl | h
  · exact hc
  · exact hw d h

theorem skipWs_cons_of_ws (c : Char) (l : List Char) (h : isWs c = true) :
    skipWs (c :: l) = skipWs l := by
  simp [skipWs, h]

theorem skipWs_cons_of_not (c : Char) (l : List Char) (h : isWs c = false) :
    skipWs (c :: l) = c :: l := by
  simp [skipWs, h]

theorem skipWs_ws_append {w : List Char} (l : List Char) (h : wsOnly w) :
    skipWs (w ++ l) = skipWs l := by
  induction w with
  | nil => rfl
  | cons c cs ih =>
    have hc := h c (List.mem_cons_self c cs)
    have hcs : wsOnly cs := fun d hd => h d (List.mem_cons_of_mem c hd)
    simp only [List.cons_append]
    rw [skipWs_cons_of_ws c _ hc, ih hcs]

theorem expectL_append (p : List Char) : ∀ rest : List Char,
    expectL p (p ++ rest) = some rest := by
  induction p with
  | nil => intro rest; rfl
  | cons c cs ih => intro rest; simp [expectL, ih]

theorem hexVal_hexDigit (n : Nat) (h : n < 16) : hexVal (hexDigit n) = some n := by
  interval_cases n <;> decide

set_option maxHeartbeats 1000000 in
theorem parseStringBody_plain (c : Char) (cs acc : List Char)
    (h1 : c ≠ '"') (h2 : c ≠ '\\') :
    parseStringBody (c :: cs) acc
      = if c.toNat < 32 then none else parseStringBody cs (acc ++ [c]) := by
  rw [parseStringBody.eq_def]
  split <;> simp_all

theorem parseStringBody_esc (l : List Char) : ∀ (acc rest : List Char),
    parseStringBody (escBody l ++ '"' :: rest) acc
      = some (String.mk (acc ++ l), rest) := by
  induction l with
  | nil =>
    intro acc rest
    simp only [escBody, List.nil_append, List.append_nil]
    rfl
  | cons c l ih =>
    intro acc rest
    by_cases h1 : c = '"'
    · subst h1
      have he : escBody ('"' :: l) = '\\' :: '"' :: escBody l := by
        simp [escBody, escChar]
      rw [he, List.cons_append, List.cons_append,
        show parseStringBody ('\\' :: '"' :: (escBody l ++ '"' :: rest)) acc
          = parseStringBody (escBody l ++ '"' :: rest) (acc ++ ['"']) from rfl, ih]
      simp
    · by_cases h2 : c = '\\'
      · subst h2
        have he : escBody ('\\' :: l) = '\\' :: '\\' :: escBody l := by
          simp [escBody, escChar]
        rw [he, List.cons_append, List.cons_append,
          show parseStringBody ('\\' :: '\\' :: (escBody l ++ '"' :: rest)) acc
            = parseStringBody (escBody l ++ '"' :: rest) (acc ++ ['\\']) from rfl, ih]
        simp
      · by_cases h3 : c = '\x08'
        · subst h3
          have he : escBody ('\x08' :: l) = '\\' :: 'b' :: escBody l := by
            simp [escBody, escChar]
          rw [he, List.cons_append, List.cons_append,
            show parseStringBody ('\\' :: 'b' :: (escBody l ++ '"' :: rest)) acc
              = parseStringBody (escBody l ++ '"' :: rest) (acc ++ ['\x08']) from rfl, ih]
          simp
        · by_cases h4 : c = '\x0C'
          · subst h4
            have he : escBody ('\x0C' :: l) = '\\' :: 'f' :: escBody l := by
              simp [escBody, escChar]
            rw [he, List.cons_append, List.cons_append,
              show parseStringBody ('\\' :: 'f' :: (escBody l ++ '"' :: rest)) acc
                = parseStringBody (escBody l ++ '"' :: rest) (acc ++ ['\x0C']) from rfl, ih]
            simp
          · by_cases h5 : c = '\n'
            · subst h5
              have he : escBody ('\n' :: l) = '\\' :: 'n' :: escBody l := by
                simp [escBody, escChar]
              rw [he, List.cons_append, List.cons_append,
                show parseStringBody ('\\' :: 'n' :: (escBody l ++ '"' :: rest)) acc
                  = parseStringBody (escBody l ++ '"' :: rest) (acc ++ ['\n']) from rfl, ih]
              simp
            · by_cases h6 : c = '\r'
              · subst h6
                have he : escBody ('\r' :: l) = '\\' :: 'r' :: escBody l := by
                  simp [escBody, escChar]
                rw [he, List.cons_append, List.cons_append,
                  show parseStringBody ('\\' :: 'r' :: (escBody l ++ '"' :: rest)) acc
                    = parseStringBody (escBody l ++ '"' :: rest) (acc ++ ['\r']) from rfl, ih]
                simp
              · by_cases h7 : c = '\t'
                · subst h7
                  have he : escBody ('\t' :: l) = '\\' :: 't' :: escBody l := by
                    simp [escBody, escChar]
                  rw [he, List.cons_append, List.cons_append,
                    show parseStringBody ('\\' :: 't' :: (escBody l ++ '"' :: rest)) acc
                      = parseStringBody (escBody l ++ '"' :: rest) (acc ++ ['\t']) from rfl, ih]
                  simp
                · by_cases h8 : c.toNat < 32
                  · have he : escBody (c :: l) = '\\' :: 'u' :: '0' :: '0'
                        :: hexDigit (c.toNat / 16) :: hexDigit (c.toNat % 16) :: escBody l := by
                      simp [escBody, escChar, h1, h2, h3, h4, h5, h6, h7, h8]
                    have hx : hex4 '0' '0' (hexDigit (c.toNat / 16)) (hexDigit (c.toNat % 16))
                        = some c.toNat := by
                      have e0 : hexVal '0' = some 0 := rfl
                      simp only [hex4, e0,
                        hexVal_hexDigit _ (show c.toNat / 16 < 16 by omega),
                        hexVal_hexDigit _ (show c.toNat % 16 < 16 by omega)]
                      congr 1
                      omega
                    rw [he, List.cons_append, List.cons_append, List.cons_append,
                      List.cons_append, List.cons_append, List.cons_append,
                      show parseStringBody ('\\' :: 'u' :: '0' :: '0'
                          :: hexDigit (c.toNat / 16) :: hexDigit (c.toNat % 16)
                          :: (escBody l ++ '"' :: rest)) acc
                        = (match hex4 '0' '0' (hexDigit (c.toNat / 16)) (hexDigit (c.toNat % 16)) with
                           | some n => parseStringBody (escBody l ++ '"' :: rest) (acc ++ [Char.ofNat n])
                           | none => none) from rfl, hx]
                    show parseStringBody (escBody l ++ '"' :: rest)
                        (acc ++ [Char.ofNat c.toNat])
                      = some (String.mk (acc ++ c :: l), rest)
                    rw [Char.ofNat_toNat, ih]
                    simp
                  · have he : escBody (c :: l) = c :: escBody l := by
                      simp [escBody, escChar, h1, h2, h3, h4, h5, h6, h7, h8]
                    rw [he, List.cons_append, parseStringBody_plain c _ _ h1 h2,
                      if_neg h8, ih]
                    simp

mutual
/-- A lower bound on the fuel parseValue needs to parse the rendering of a
value: one unit for the value itself plus the needs of its children. -/
def fuelNeed : Json → Nat
  | .null => 1
  | .bool _ => 1
  | .str _ => 1
  | .arr l => 1 + fuelNeedItems l
  | .obj l => 1 + fuelNeedMembers l

/-- Fuel needed by parseItems for an array body: one unit per element plus
the needs of the elements. -/
def fuelNeedItems : List Json → Nat
  | [] => 0
  | x :: xs => 1 + fuelNeed x + fuelNeedItems xs

/-- Fuel needed by parseMembers for an object body. -/
def fuelNeedMembers : List (String × Json) → Nat
  | [] => 0
  | m :: ms => 1 + fuelNeed m.2 + fuelNeedMembers ms
end

theorem one_le_fuelNeed (j : Json) : 1 ≤ fuelNeed j := by
  cases j <;> simp [fuelNeed]

theorem one_le_fuelNeedItems (x : Json) (xs : List Json) :
    1 ≤ fuelNeedItems (x :: xs) := by
  simp only [fuelNeedItems]
  omega

theorem one_le_fuelNeedMembers (m : String × Json) (ms : List (String × Json)) :
    1 ≤ fuelNeedMembers (m :: ms) := by
  simp only [fuelNeedMembers]
  omega

theorem renderItems_eq_append (ind : List Char) (x : Json) (xs : List Json) :
    ∃ tail, renderItems ind (x :: xs) = ind ++ (renderL ind x ++ tail) := by
  cases xs with
  | nil => exact ⟨[], by simp [renderItems]⟩
  | cons y ys =>
    exact ⟨',' :: '\n' :: renderItems ind (y :: ys), by simp [renderItems]⟩

theorem renderMembers_eq_append (ind : List Char) (k : String) (v : Json)
    (ms : List (String × Json)) : ∃ tail,
    renderMembers ind ((k, v) :: ms)
      = ind ++ ('"' :: (escBody k.data ++ '"' :: ':' :: ' ' :: (renderL ind v ++ tail))) := by
  cases ms with
  | nil =>
    refine ⟨[], ?_⟩
    simp [renderMembers, quoteL, List.append_assoc]
  | cons m ms2 =>
    refine ⟨',' :: '\n' :: renderMembers ind (m :: ms2), ?_⟩
    simp [renderMembers, quoteL, List.append_assoc]

theorem renderL_head (ind : List Char) (j : Json) :
    ∃ c t, renderL ind j = c :: t ∧ isWs c = false ∧ c ≠ ']' ∧ c ≠ '}' := by
  cases j with
  | null => exact ⟨'n', ['u', 'l', 'l'], by simp [renderL], rfl, by decide, by decide⟩
  | bool b =>
    cases b with
    | true => exact ⟨'t', ['r', 'u', 'e'], by simp [renderL], rfl, by decide, by decide⟩
    | false => exact ⟨'f', ['a', 'l', 's', 'e'], by simp [renderL], rfl, by decide, by decide⟩
  | str s =>
    exact ⟨'"', escBody s.data ++ ['"'], by simp [renderL, quoteL], rfl, by decide, by decide⟩
  | arr l =>
    cases l with
    | nil => exact ⟨'[', [']'], by simp [renderL], rfl, by decide, by decide⟩
    | cons x xs =>
      exact ⟨'[', '\n' :: (renderItems (ind ++ gapL) (x :: xs) ++ ('\n' :: (ind ++ [']']))),
        by simp [renderL], rfl, by decide, by decide⟩
  | obj l =>
    cases l with
    | nil => exact ⟨'{', ['}'], by simp [renderL], rfl, by decide, by decide⟩
    | cons m ms =>
      exact ⟨'{', '\n' :: (renderMembers (ind ++ gapL) (m :: ms) ++ ('\n' :: (ind ++ ['}']))),
        by simp [renderL], rfl, by decide, by decide⟩

theorem skipWs_renderL_append (ind : List Char) (j : Json) (l : List Char) :
    skipWs (renderL ind j ++ l) = renderL ind j ++ l := by
  obtain ⟨c, t, hct, hcw, _, _⟩ := renderL_head ind j
  rw [hct, List.cons_append, skipWs_cons_of_not c _ hcw]

theorem parse_render_fuel : ∀ fuel : Nat,
    (∀ (j : Json) (ind cs rest : List Char), fuelNeed j ≤ fuel → wsOnly ind →
      skipWs cs = renderL ind j ++ rest → parseValue fuel cs = some (j, rest)) ∧
    (∀ (l : List Json) (ind ind0 cs : List Char) (acc : List Json) (rest : List Char),
      l ≠ [] → fuelNeedItems l ≤ fuel → wsOnly ind → wsOnly ind0 →
      skipWs cs = skipWs (renderItems ind l ++ '\n' :: (ind0 ++ ']' :: rest)) →
      parseItems fuel cs acc = some (Json.arr (acc ++ l), rest)) ∧
    (∀ (l : List (String × Json)) (ind ind0 cs : List Char)
      (acc : List (String × Json)) (rest : List Char),
      l ≠ [] → fuelNeedMembers l ≤ fuel → wsOnly ind → wsOnly ind0 →
      skipWs cs = skipWs (renderMembers ind l ++ '\n' :: (ind0 ++ '}' :: rest)) →
      parseMembers fuel cs acc = some (Json.obj (acc ++ l), rest)) := by
  intro fuel
  induction fuel with
  | zero =>
    refine ⟨?_, ?_, ?_⟩
    · intro j ind cs rest hfuel _ _
      have := one_le_fuelNeed j
      omega
    · intro l ind ind0 cs acc rest hne hfuel _ _ _
      cases l with
      | nil => exact absurd rfl hne
      | cons x xs =>
        have := one_le_fuelNeedItems x xs
        omega
    · intro l ind ind0 cs acc rest hne hfuel _ _ _
      cases l with
      | nil => exact absurd rfl hne
      | cons m ms =>
        have := one_le_fuelNeedMembers m ms
        omega
  | succ fuel ih =>
    obtain ⟨ihv, ihi, ihm⟩ := ih
    refine ⟨?_, ?_, ?_⟩
    · -- parseValue on a rendered value
      intro j ind cs rest hfuel hind hskip
      cases j with
      | null =>
        rw [show renderL ind Json.null = ['n', 'u', 'l', 'l'] from by simp [renderL]] at hskip
        simp only [List.cons_append, List.nil_append] at hskip
        simp only [parseValue]
        rw [hskip]
        rfl
      | bool b =>
        cases b with
        | true =>
          rw [show renderL ind (Json.bool true) = ['t', 'r', 'u', 'e'] from by
            simp [renderL]] at hskip
          simp only [List.cons_append, List.nil_append] at hskip
          simp only [parseValue]
          rw [hskip]
          rfl
        | false =>
          rw [show renderL ind (Json.bool false) = ['f', 'a', 'l', 's', 'e'] from by
            simp [renderL]] at hskip
          simp only [List.cons_append, List.nil_append] at hskip
          simp only [parseValue]
          rw [hskip]
          rfl
      | str s =>
        rw [show renderL ind (Json.str s) = '"' :: (escBody s.data ++ ['"']) from by
          simp [renderL, quoteL]] at hskip
        simp only [List.cons_append, List.append_assoc, List.singleton_append] at hskip
        simp only [parseValue]
        rw [hskip]
        show (parseStringBody (escBody s.data ++ '"' :: rest) []).map
            (fun p => (Json.str p.1, p.2)) = some (Json.str s, rest)
        rw [parseStringBody_esc]
        rfl
      | arr l =>
        cases l with
        | nil =>
          rw [show renderL ind (Json.arr []) = ['[', ']'] from by simp [renderL]] at hskip
          simp only [List.cons_append, List.nil_append] at hskip
          simp only [parseValue]
          rw [hskip]
          rfl
        | cons x xs =>
          rw [show renderL ind (Json.arr (x :: xs))
              = '[' :: '\n' :: (renderItems (ind ++ gapL) (x :: xs)
                ++ ('\n' :: (ind ++ [']']))) from by simp [renderL]] at hskip
          simp only [List.cons_append, List.append_assoc, List.singleton_append] at hskip
          -- hskip : skipWs cs = '[' :: '\n' ::
          --   (renderItems (ind ++ gapL) (x :: xs) ++ '\n' :: (ind ++ ']' :: rest))
          obtain ⟨c, t, hct, hcw, hc1, hc2⟩ := renderL_head (ind ++ gapL) x
          obtain ⟨tail, htail⟩ := renderItems_eq_append (ind ++ gapL) x xs
          have hwsT : skipWs ('\n' :: (renderItems (ind ++ gapL) (x :: xs)
                ++ '\n' :: (ind ++ ']' :: rest)))
              = c :: (t ++ (tail ++ '\n' :: (ind ++ ']' :: rest))) := by
            rw [skipWs_cons_of_ws '\n' _ rfl, htail]
            simp only [List.append_assoc]
            rw [skipWs_ws_append _ hind, skipWs_ws_append _ wsOnly_gapL,
              skipWs_renderL_append, hct, List.cons_append]
          simp only [parseValue]
          rw [hskip]
          show (match skipWs ('\n' :: (renderItems (ind ++ gapL) (x :: xs)
                  ++ '\n' :: (ind ++ ']' :: rest))) with
               | ']' :: r => some (Json.arr [], r)
               | _ => parseItems fuel ('\n' :: (renderItems (ind ++ gapL) (x :: xs)
                  ++ '\n' :: (ind ++ ']' :: rest))) [])
              = some (Json.arr (x :: xs), rest)
          rw [hwsT]
          split
          · rename_i heq
            injection heq with h1 _
            exact absurd h1 hc1
          · have hfi : fuelNeedItems (x :: xs) ≤ fuel := by
              simp only [fuelNeed] at hfuel
              omega
            have := ihi (x :: xs) (ind ++ gapL) ind
              ('\n' :: (renderItems (ind ++ gapL) (x :: xs) ++ '\n' :: (ind ++ ']' :: rest)))
              [] rest (by simp) hfi (wsOnly_append hind wsOnly_gapL) hind
              (skipWs_cons_of_ws '\n' _ rfl)
            simpa using this
      | obj l =>
        cases l with
        | nil =>
          rw [show renderL ind (Json.obj []) = ['{', '}'] from by simp [renderL]] at hskip
          simp only [List.cons_append, List.nil_append] at hskip
          simp only [parseValue]
          rw [hskip]
          rfl
        | cons m ms =>
          obtain ⟨k, v⟩ := m
          rw [show renderL ind (Json.obj ((k, v) :: ms))
              = '{' :: '\n' :: (renderMembers (ind ++ gapL) ((k, v) :: ms)
                ++ ('\n' :: (ind ++ ['}']))) from by simp [renderL]] at hskip
          simp only [List.cons_append, List.append_assoc, List.singleton_append] at hskip
          obtain ⟨tail, htail⟩ := renderMembers_eq_append (ind ++ gapL) k v ms
          have hwsT : skipWs ('\n' :: (renderMembers (ind ++ gapL) ((k, v) :: ms)
                ++ '\n' :: (ind ++ '}' :: rest)))
              = '"' :: (escBody k.data ++ '"' :: ':' :: ' ' :: (renderL (ind ++ gapL) v
                  ++ (tail ++ '\n' :: (ind ++ '}' :: rest)))) := by
            rw [skipWs_cons_of_ws '\n' _ rfl, htail]
            simp only [List.append_assoc, List.cons_append]
            rw [skipWs_ws_append _ hind, skipWs_ws_append _ wsOnly_gapL,
              skipWs_cons_of_not '"' _ rfl]
          simp only [parseValue]
          rw [hskip]
          show (match skipWs ('\n' :: (renderMembers (ind ++ gapL) ((k, v) :: ms)
                  ++ '\n' :: (ind ++ '}' :: rest))) with
               | '}' :: r => some (Json.obj [], r)
               | _ => parseMembers fuel ('\n' :: (renderMembers (ind ++ gapL) ((k, v) :: ms)
                  ++ '\n' :: (ind ++ '}' :: rest))) [])
              = some (Json.obj ((k, v) :: ms), rest)
          rw [hwsT]
          split
          · rename_i heq
            injection heq with h1 _
            exact absurd h1 (by decide)
          · have hfm : fuelNeedMembers ((k, v) :: ms) ≤ fuel := by
              simp only [fuelNeed] at hfuel
              omega
            have := ihm ((k, v) :: ms) (ind ++ gapL) ind
              ('\n' :: (renderMembers (ind ++ gapL) ((k, v) :: ms) ++ '\n' :: (ind ++ '}' :: rest)))
              [] rest (by simp) hfm (wsOnly_append hind wsOnly_gapL) hind
              (skipWs_cons_of_ws '\n' _ rfl)
            simpa using this
    · -- parseItems on a rendered array body
      intro l ind ind0 cs acc rest hne hfuel hind hind0 hskip
      cases l with
      | nil => exact absurd rfl hne
      | cons x xs =>
        have hfx : fuelNeed x ≤ fuel := by
          simp only [fuelNeedItems] at hfuel
          omega
        cases xs with
        | nil =>
          have hskip' : skipWs cs = renderL ind x ++ ('\n' :: (ind0 ++ ']' :: rest)) := by
            rw [hskip, show renderItems ind [x] = ind ++ renderL ind x from by
              simp [renderItems]]
            simp only [List.append_assoc]
            rw [skipWs_ws_append _ hind, skipWs_renderL_append]
          have hv := ihv x ind cs ('\n' :: (ind0 ++ ']' :: rest)) hfx hind hskip'
          simp only [parseItems]
          rw [hv]
          simp only []
          have hs2 : skipWs ('\n' :: (ind0 ++ ']' :: rest)) = ']' :: rest := by
            rw [skipWs_cons_of_ws '\n' _ rfl, skipWs_ws_append _ hind0,
              skipWs_cons_of_not ']' _ rfl]
          rw [hs2]
          rfl
        | cons y ys =>
          have hskip' : skipWs cs = renderL ind x
              ++ (',' :: '\n' :: (renderItems ind (y :: ys) ++ '\n' :: (ind0 ++ ']' :: rest))) := by
            rw [hskip, show renderItems ind (x :: y :: ys)
                = ind ++ (renderL ind x ++ (',' :: '\n' :: renderItems ind (y :: ys))) from by
              simp [renderItems]]
            simp only [List.append_assoc, List.cons_append]
            rw [skipWs_ws_append _ hind, skipWs_renderL_append]
          have hv := ihv x ind cs
            (',' :: '\n' :: (renderItems ind (y :: ys) ++ '\n' :: (ind0 ++ ']' :: rest)))
            hfx hind hskip'
          simp only [parseItems]
          rw [hv]
          simp only []
          rw [skipWs_cons_of_not ',' _ rfl]
          show parseItems fuel ('\n' :: (renderItems ind (y :: ys) ++ '\n' :: (ind0 ++ ']' :: rest)))
              (acc ++ [x]) = some (Json.arr (acc ++ x :: y :: ys), rest)
          have hfi : fuelNeedItems (y :: ys) ≤ fuel := by
            simp only [fuelNeedItems] at hfuel ⊢
            omega
          have := ihi (y :: ys) ind ind0
            ('\n' :: (renderItems ind (y :: ys) ++ '\n' :: (ind0 ++ ']' :: rest)))
            (acc ++ [x]) rest (by simp) hfi hind hind0 (skipWs_cons_of_ws '\n' _ rfl)
          simpa using this
    · -- parseMembers on a rendered object body
      intro l ind ind0 cs acc rest hne hfuel hind hind0 hskip
      cases l with
      | nil => exact absurd rfl hne
      | cons m ms =>
        obtain ⟨k, v⟩ := m
        have hfv : fuelNeed v ≤ fuel := by
          simp only [fuelNeedMembers] at hfuel
          omega
        cases ms with
        | nil =>
          have hskip' : skipWs cs = '"' :: (escBody k.data
              ++ '"' :: ':' :: ' ' :: (renderL ind v ++ ('\n' :: (ind0 ++ '}' :: rest)))) := by
            rw [hskip, show renderMembers ind [(k, v)]
                = ind ++ ('"' :: (escBody k.data ++ '"' :: ':' :: ' ' :: renderL ind v)) from by
              simp [renderMembers, quoteL, List.append_assoc]]
            simp only [List.append_assoc, List.cons_append]
            rw [skipWs_ws_append _ hind, skipWs_cons_of_not '"' _ rfl]
          simp only [parseMembers]
          rw [hskip']
          simp only []
          rw [parseStringBody_esc]
          simp only [List.nil_append]
          rw [skipWs_cons_of_not ':' _ rfl]
          show (match parseValue fuel (' ' :: (renderL ind v ++ ('\n' :: (ind0 ++ '}' :: rest)))) with
               | some (v2, r3) =>
                 match skipWs r3 with
                 | ',' :: r4 => parseMembers fuel r4 (acc ++ [(String.mk k.data, v2)])
                 | '}' :: r4 => some (Json.obj (acc ++ [(String.mk k.data, v2)]), r4)
                 | _ => none
               | none => none)
              = some (Json.obj (acc ++ (k, v) :: []), rest)
          have hv := ihv v ind (' ' :: (renderL ind v ++ ('\n' :: (ind0 ++ '}' :: rest))))
            ('\n' :: (ind0 ++ '}' :: rest)) hfv hind
            (by rw [skipWs_cons_of_ws ' ' _ rfl, skipWs_renderL_append])
          rw [hv]
          simp only []
          have hs2 : skipWs ('\n' :: (ind0 ++ '}' :: rest)) = '}' :: rest := by
            rw [skipWs_cons_of_ws '\n' _ rfl, skipWs_ws_append _ hind0,
              skipWs_cons_of_not '}' _ rfl]
          rw [hs2]
          rfl
        | cons m2 ms2 =>
          have hskip' : skipWs cs = '"' :: (escBody k.data
              ++ '"' :: ':' :: ' ' :: (renderL ind v
                ++ (',' :: '\n' :: (renderMembers ind (m2 :: ms2)
                  ++ '\n' :: (ind0 ++ '}' :: rest))))) := by
            obtain ⟨tail, htail⟩ := renderMembers_eq_append ind k v (m2 :: ms2)
            rw [hskip, show renderMembers ind ((k, v) :: m2 :: ms2)
                = ind ++ ('"' :: (escBody k.data ++ '"' :: ':' :: ' ' :: (renderL ind v
                  ++ (',' :: '\n' :: renderMembers ind (m2 :: ms2))))) from by
              simp [renderMembers, quoteL, List.append_assoc]]
            simp only [List.append_assoc, List.cons_append]
            rw [skipWs_ws_append _ hind, skipWs_cons_of_not '"' _ rfl]
          simp only [parseMembers]
          rw [hskip']
          simp only []
          rw [parseStringBody_esc]
          simp only [List.nil_append]
          rw [skipWs_cons_of_not ':' _ rfl]
          show (match parseValue fuel (' ' :: (renderL ind v
                  ++ (',' :: '\n' :: (renderMembers ind (m2 :: ms2)
                    ++ '\n' :: (ind0 ++ '}' :: rest))))) with
               | some (v2, r3) =>
                 match skipWs r3 with
                 | ',' :: r4 => parseMembers fuel r4 (acc ++ [(String.mk k.data, v2)])
                 | '}' :: r4 => some (Json.obj (acc ++ [(String.mk k.data, v2)]), r4)
                 | _ => none
               | none => none)
              = some (Json.obj (acc ++ (k, v) :: m2 :: ms2), rest)
          have hv := ihv v ind
            (' ' :: (renderL ind v ++ (',' :: '\n' :: (renderMembers ind (m2 :: ms2)
              ++ '\n' :: (ind0 ++ '}' :: rest)))))
            (',' :: '\n' :: (renderMembers ind (m2 :: ms2) ++ '\n' :: (ind0 ++ '}' :: rest)))
            hfv hind
            (by rw [skipWs_cons_of_ws ' ' _ rfl, skipWs_renderL_append])
          rw [hv]
          simp only []
          rw [skipWs_cons_of_not ',' _ rfl]
          show parseMembers fuel ('\n' :: (renderMembers ind (m2 :: ms2)
              ++ '\n' :: (ind0 ++ '}' :: rest))) (acc ++ [(String.mk k.data, v)])
            = some (Json.obj (acc ++ (k, v) :: m2 :: ms2), rest)
          have hfm : fuelNeedMembers (m2 :: ms2) ≤ fuel := by
            simp only [fuelNeedMembers] at hfuel ⊢
            omega
          have := ihm (m2 :: ms2) ind ind0
            ('\n' :: (renderMembers ind (m2 :: ms2) ++ '\n' :: (ind0 ++ '}' :: rest)))
            (acc ++ [(String.mk k.data, v)]) rest (by simp) hfm hind hind0
            (skipWs_cons_of_ws '\n' _ rfl)
          simpa using this

mutual
theorem fuelNeed_le_renderL (j : Json) : ∀ ind : List Char,
    fuelNeed j ≤ (renderL ind j).length := by
  intro ind
  cases j with
  | null => simp [fuelNeed, renderL]
  | bool b => cases b <;> simp [fuelNeed, renderL]
  | str s => simp [fuelNeed, renderL, quoteL]
  | arr l =>
    cases l with
    | nil => simp [fuelNeed, fuelNeedItems, renderL]
    | cons x xs =>
      have h := fuelNeedItems_le_renderItems (x :: xs) (ind ++ gapL) (by simp [gapL])
      simp only [fuelNeed, renderL, List.length_cons, List.length_append]
      omega
  | obj l =>
    cases l with
    | nil => simp [fuelNeed, fuelNeedMembers, renderL]
    | cons m ms =>
      have h := fuelNeedMembers_le_renderMembers (m :: ms) (ind ++ gapL) (by simp [gapL])
      simp only [fuelNeed, renderL, List.length_cons, List.length_append]
      omega

theorem fuelNeedItems_le_renderItems (l : List Json) : ∀ ind : List Char,
    1 ≤ ind.length → fuelNeedItems l ≤ (renderItems ind l).length := by
  intro ind hind
  cases l with
  | nil => simp [fuelNeedItems, renderItems]
  | cons x xs =>
    cases xs with
    | nil =>
      have h := fuelNeed_le_renderL x ind
      simp only [fuelNeedItems, renderItems, List.length_append]
      omega
    | cons y ys =>
      have h1 := fuelNeed_le_renderL x ind
      have h2 := fuelNeedItems_le_renderItems (y :: ys) ind hind
      simp only [fuelNeedItems] at h2
      simp only [fuelNeedItems, renderItems, List.length_append, List.length_cons]
      omega

theorem fuelNeedMembers_le_renderMembers (l : List (String × Json)) : ∀ ind : List Char,
    1 ≤ ind.length → fuelNeedMembers l ≤ (renderMembers ind l).length := by
  intro ind hind
  cases l with
  | nil => simp [fuelNeedMembers, renderMembers]
  | cons m ms =>
    obtain ⟨k, v⟩ := m
    cases ms with
    | nil =>
      have h := fuelNeed_le_renderL v ind
      simp only [fuelNeedMembers, renderMembers, List.length_append, List.length_cons]
      omega
    | cons m2 ms2 =>
      have h1 := fuelNeed_le_renderL v ind
      have h2 := fuelNeedMembers_le_renderMembers (m2 :: ms2) ind hind
      simp only [fuelNeedMembers] at h2
      simp only [fuelNeedMembers, renderMembers, List.length_append, List.length_cons]
      omega
end

/-- Parsing the rendering of any JSON value gives back exactly that value:
JSON.parse inverts JSON.stringify(x, null, 4) on the number free fragment. -/
theorem parseJson_render (j : Json) : parseJson (Json.render j) = some j := by
  have hfuel : fuelNeed j ≤ (renderL [] j).length + 1 := by
    have := fuelNeed_le_renderL j []
    omega
  have hv := (parse_render_fuel ((renderL [] j).length + 1)).1 j [] (renderL [] j) []
    hfuel wsOnly_nil
    (by
      obtain ⟨c, t, hct, hcw, _, _⟩ := renderL_head [] j
      rw [hct, skipWs_cons_of_not c _ hcw, List.append_nil])
  show (match parseValue ((renderL [] j).length + 1) (renderL [] j) with
        | some (jj, rest) => if skipWs rest = [] then some jj else none
        | none => none) = some j
  rw [hv]
  rfl

/-- Modelled from the spec: the external pluralization utility, on the
regular nouns the spec describes (a model named Todo pluralizes to Todos):
append the letter s. Used to instantiate the abstract environment in
concrete checks. -/
def specPlural (s : String) : String := s ++ "s"

/-- Modelled from the spec: the external first letter capitalization
utility (upperCaseFirst of the change case library). -/
def specUpperCaseFirst (s : String) : String :=
  match s.data with
  | [] => ""
  | c :: cs => String.mk (c.toUpper :: cs)

/-- A concrete environment with empty registries and identity style naming
functions, used as the base of concrete checks. -/
def baseEnv : VisitorEnv :=
  { getSelectedModels := []
    enumMap := []
    getModelName := fun m => m.name
    getEnumName := fun e => e.name
    getFieldName := fun f => f.name
    computeVersion := "v1"
    plural := specPlural
    upperCaseFirst := specUpperCaseFirst }

def cexEnumS : CodeGenEnum := { name := "String", values := [("A", "A")] }

def cexEnumColor : CodeGenEnum := { name := "Color", values := [("RED", "RED")] }

/-- An environment whose enum registry contains a key colliding with a
scalar tag and a key whose display name differs from its stored name. -/
def cexEnv1 : VisitorEnv :=
  { baseEnv with
    enumMap := [("String", cexEnumS), ("Color", cexEnumColor)]
    getEnumName := fun e => e.name ++ "X" }

def todoModel : CodeGenModel := { name := "Todo", directives := [], fields := [] }

/-- An environment with one selected model whose display name (Task)
differs from its schema name (Todo). -/
def cexEnv2 : VisitorEnv :=
  { baseEnv with
    getSelectedModels := [("Todo", todoModel)]
    getModelName := fun _ => "Task" }

def wtodoEnv : VisitorEnv :=
  { baseEnv with getSelectedModels := [("Todo", todoModel)] }

def taskModel : CodeGenModel := { name := "task_model", directives := [], fields := [] }

def wEnv5 : VisitorEnv :=
  { baseEnv with
    getSelectedModels := [("task_model", taskModel)]
    getModelName := fun _ => "TaskDisplay" }

def wEnum : CodeGenEnum :=
  { name := "color_enum", values := [("RED", "red"), ("BLUE", "blue")] }

def wEnv6 : VisitorEnv :=
  { baseEnv with
    enumMap := [("ColorKey", wEnum)]
    getEnumName := fun e => e.name ++ "Disp" }

def wOtherField : CodeGenField := .mk "post" "Post" true false none

def wConnField : CodeGenField :=
  .mk "comments" "Comment" true true (some (.mk .HAS_MANY wOtherField "postID"))

def wPlainField : CodeGenField := .mk "title" "String" false false none

/-- C1 counterexample: getType tests scalar membership before enum registry
membership, so an enum registry key that collides with a scalar tag yields
the scalar form, not the enum form; and for an ordinary enum key the
returned name is the stored registry entry name, not the display name
produced by the external naming function. -/
theorem getType_enum_priority_cex :
    recordGet cexEnv1.enumMap "String" = some cexEnumS ∧
    cexEnv1.getEnumName cexEnumS = "StringX" ∧
    getType cexEnv1 "String" = JSONModelFieldType.scalar JSONGraphQLScalarType.String ∧
    getType cexEnv1 "String" ≠ JSONModelFieldType.enum "StringX" ∧
    recordGet cexEnv1.enumMap "Color" = some cexEnumColor ∧
    cexEnv1.getEnumName cexEnumColor = "ColorX" ∧
    getType cexEnv1 "Color" = JSONModelFieldType.enum "Color" ∧
    getType cexEnv1 "Color" ≠ JSONModelFieldType.enum "ColorX" := by
  refine ⟨rfl, rfl, rfl, ?_, rfl, rfl, rfl, ?_⟩ <;> decide

/-- C1 (amended): for every field whose raw schema type name is a key of
the enum registry and is not one of the five scalar tags, getType returns
the enum form carrying the name stored on the registry entry, and never the
scalar or model form; scalar membership is tested before enum registry
membership. -/
theorem getType_enum_of_not_scalar (env : VisitorEnv) (t : String) (e : CodeGenEnum)
    (hscalar : scalarOfString t = none) (henum : recordGet env.enumMap t = some e) :
    getType env t = JSONModelFieldType.enum e.name ∧
    (∀ s, getType env t ≠ JSONModelFieldType.scalar s) ∧
    (∀ n2, getType env t ≠ JSONModelFieldType.model n2) := by
  refine ⟨?_, ?_, ?_⟩ <;> simp [getType, hscalar, henum]

/-- Concrete instance of the amended C1 statement. -/
theorem getType_enum_of_not_scalar_witness :
    scalarOfString "Color" = none ∧
    recordGet cexEnv1.enumMap "Color" = some cexEnumColor ∧
    getType cexEnv1 "Color" = JSONModelFieldType.enum "Color" :=
  ⟨rfl, rfl, (getType_enum_of_not_scalar cexEnv1 "Color" cexEnumColor rfl rfl).1⟩

/-- C2 counterexample: pluralizeModelName pluralizes the capitalized
original schema name, not the display name of the external naming function;
with display name Task over schema name Todo the emitted pluralTargetName
is Todos while the pluralized capitalized display name is Tasks. -/
theorem pluralTargetName_display_cex :
    cexEnv2.getModelName todoModel = "Task" ∧
    todoModel.name = "Todo" ∧
    (recordGet (generateMetaData cexEnv2).models "Todo").map
      (fun m => m.pluralTargetName) = some "Todos" ∧
    cexEnv2.plural (cexEnv2.upperCaseFirst (cexEnv2.getModelName todoModel)) = "Tasks" ∧
    ("Todos" : String) ≠ "Tasks" := by
  refine ⟨rfl, rfl, rfl, rfl, ?_⟩
  decide

/-- C2 (amended): for every selected model, the emitted pluralTargetName is
the pluralization of the first letter capitalized original schema name of
the model (its targetName); in particular a model whose schema name is Todo
gets Todos whenever the external pluralizer sends Todo to Todos. -/
theorem pluralTargetName_from_schema_name (env : VisitorEnv) (n : String)
    (obj : CodeGenModel) (hmem : (n, obj) ∈ env.getSelectedModels)
    (hnodup : (env.getSelectedModels.map (fun p => p.2.name)).Nodup) :
    (recordGet (generateMetaData env).models obj.name).map (fun m => m.pluralTargetName)
      = some (env.plural (env.upperCaseFirst obj.name)) ∧
    (obj.name = "Todo" → env.plural (env.upperCaseFirst "Todo") = "Todos" →
      (recordGet (generateMetaData env).models obj.name).map (fun m => m.pluralTargetName)
        = some "Todos") := by
  have hlook : recordGet (generateMetaData env).models obj.name
      = some (modelEntry env obj) :=
    foldl_recordInsert_lookup (fun p : String × CodeGenModel => p.2.name)
      (fun p => modelEntry env p.2) env.getSelectedModels [] (n, obj) hmem hnodup
  constructor
  · rw [hlook]
    rfl
  · intro h1 h2
    rw [hlook]
    show some ((modelEntry env obj).pluralTargetName) = some "Todos"
    rw [show (modelEntry env obj).pluralTargetName
        = env.plural (env.upperCaseFirst obj.name) from rfl, h1, h2]

/-- Concrete instance of the amended C2 statement. -/
theorem pluralTargetName_from_schema_name_witness :
    (recordGet (generateMetaData wtodoEnv).models "Todo").map
      (fun m => m.pluralTargetName) = some "Todos" := by
  have h := pluralTargetName_from_schema_name wtodoEnv "Todo" todoModel
    (List.Mem.head _) (by decide)
  exact h.2 rfl rfl

/-- C3: generate raises an error exactly when the configured target is none
of typescript, javascript and typeDeclaration; the error message carries
the offending value, and an error carries no output text. -/
theorem generate_error_iff (env : VisitorEnv) (mode : String) :
    ((∃ msg, generate mode env = Except.error msg)
      ↔ (mode ≠ "typescript" ∧ mode ≠ "javascript" ∧ mode ≠ "typeDeclaration")) ∧
    (mode ≠ "typescript" ∧ mode ≠ "javascript" ∧ mode ≠ "typeDeclaration" →
      generate mode env = Except.error
        ("Unsupported metadataTarget " ++ mode
          ++ ". Supported targets are javascript and typescript") ∧
      ∃ pre post,
        "Unsupported metadataTarget " ++ mode
          ++ ". Supported targets are javascript and typescript"
          = pre ++ mode ++ post) := by
  by_cases h1 : mode = "typescript"
  · subst h1
    constructor
    · constructor
      · rintro ⟨msg, hmsg⟩
        simp [generate] at hmsg
      · rintro ⟨ha, _, _⟩
        exact absurd rfl ha
    · rintro ⟨ha, _, _⟩
      exact absurd rfl ha
  · by_cases h2 : mode = "javascript"
    · subst h2
      constructor
      · constructor
        · rintro ⟨msg, hmsg⟩
          simp [generate] at hmsg
        · rintro ⟨_, hb, _⟩
          exact absurd rfl hb
      · rintro ⟨_, hb, _⟩
        exact absurd rfl hb
    · by_cases h3 : mode = "typeDeclaration"
      · subst h3
        constructor
        · constructor
          · rintro ⟨msg, hmsg⟩
            simp [generate] at hmsg
          · rintro ⟨_, _, hc⟩
            exact absurd rfl hc
        · rintro ⟨_, _, hc⟩
          exact absurd rfl hc
      · have hgen : generate mode env = Except.error
            ("Unsupported metadataTarget " ++ mode
              ++ ". Supported targets are javascript and typescript") := by
          simp [generate, h1, h2, h3]
        constructor
        · constructor
          · intro _
            exact ⟨h1, h2, h3⟩
          · intro _
            exact ⟨_, hgen⟩
        · intro _
          exact ⟨hgen,
            ⟨"Unsupported metadataTarget ",
             ". Supported targets are javascript and typescript", rfl⟩⟩

/-- Concrete instance of C3 at the invalid target cobol. -/
theorem generate_error_iff_witness :
    generate "cobol" baseEnv = Except.error
      ("Unsupported metadataTarget " ++ "cobol"
        ++ ". Supported targets are javascript and typescript") ∧
    ∃ pre post,
      "Unsupported metadataTarget " ++ "cobol"
        ++ ". Supported targets are javascript and typescript"
        = pre ++ "cobol" ++ post := by
  have h := (generate_error_iff baseEnv "cobol").2 ⟨by decide, by decide, by decide⟩
  exact ⟨h.1, h.2⟩

/-- C4: a field carrying relation information produces exactly one
attribute, of type connection; its properties carry associatedWith (the
display name of the field on the other side) for the has many and has one
kinds, and targetName (the stored connection target name) otherwise, and
never both keys at once. -/
theorem generateFieldAttributes_connection (env : VisitorEnv) (f : CodeGenField)
    (ci : CodeGenFieldConnection) (h : f.connectionInfo = some ci) :
    generateFieldAttributes env f
      = [{ type := "connection",
           properties := ("connectionType", Json.str ci.kind.tag) ::
             (if ci.kind = .HAS_MANY ∨ ci.kind = .HAS_ONE
              then [("associatedWith", Json.str (env.getFieldName ci.associatedWith))]
              else [("targetName", Json.str ci.targetName)]) }] ∧
    (generateFieldAttributes env f).length = 1 ∧
    (∀ a ∈ generateFieldAttributes env f,
      a.type = "connection" ∧
      ¬("associatedWith" ∈ a.properties.map Prod.fst ∧
        "targetName" ∈ a.properties.map Prod.fst) ∧
      ((ci.kind = .HAS_MANY ∨ ci.kind = .HAS_ONE) →
        "associatedWith" ∈ a.properties.map Prod.fst ∧
        "targetName" ∉ a.properties.map Prod.fst) ∧
      (¬(ci.kind = .HAS_MANY ∨ ci.kind = .HAS_ONE) →
        "targetName" ∈ a.properties.map Prod.fst ∧
        "associatedWith" ∉ a.properties.map Prod.fst)) := by
  obtain ⟨kind, aw, tn⟩ := ci
  cases kind <;>
    simp [generateFieldAttributes, h, CodeGenFieldConnection.kind,
      CodeGenFieldConnection.associatedWith, CodeGenFieldConnection.targetName,
      CodeGenConnectionType.tag]

/-- Concrete instance of C4 for a has many relation. -/
theorem generateFieldAttributes_connection_witness :
    generateFieldAttributes baseEnv wConnField
      = [{ type := "connection",
           properties := [("connectionType", Json.str "HAS_MANY"),
             ("associatedWith", Json.str "post")] }] := by
  have h := (generateFieldAttributes_connection baseEnv wConnField
    (.mk .HAS_MANY wOtherField "postID") rfl).1
  simpa using h

/-- C5: the models mapping of the document is keyed by the original schema
name of each selected model, while the name stored inside the entry is the
display name of the external naming function, and targetName is again the
schema name. -/
theorem models_keyed_by_schema_name (env : VisitorEnv) (n : String) (obj : CodeGenModel)
    (hmem : (n, obj) ∈ env.getSelectedModels)
    (hnodup : (env.getSelectedModels.map (fun p => p.2.name)).Nodup) :
    recordGet (generateMetaData env).models obj.name = some (modelEntry env obj) ∧
    (modelEntry env obj).name = env.getModelName obj ∧
    (modelEntry env obj).targetName = obj.name := by
  refine ⟨?_, rfl, rfl⟩
  exact foldl_recordInsert_lookup (fun p : String × CodeGenModel => p.2.name)
    (fun p => modelEntry env p.2) env.getSelectedModels [] (n, obj) hmem hnodup

/-- Concrete instance of C5 with differing display and schema names. -/
theorem models_keyed_by_schema_name_witness :
    recordGet (generateMetaData wEnv5).models "task_model"
      = some (modelEntry wEnv5 taskModel) ∧
    (modelEntry wEnv5 taskModel).name = "TaskDisplay" ∧
    (modelEntry wEnv5 taskModel).targetName = "task_model" ∧
    ("TaskDisplay" : String) ≠ "task_model" := by
  have h := models_keyed_by_schema_name wEnv5 "task_model" taskModel
    (List.Mem.head _) (by decide)
  exact ⟨h.1, h.2.1, h.2.2, by decide⟩

/-- C6: every enum of the registry contributes an entry keyed by its
display name, whose name field is the registry iteration key and whose
values are the ordered values of the enum. -/
theorem enums_keyed_by_display_name (env : VisitorEnv) (k : String) (e : CodeGenEnum)
    (hmem : (k, e) ∈ env.enumMap)
    (hnodup : (env.enumMap.map (fun p => env.getEnumName p.2)).Nodup) :
    recordGet (generateMetaData env).enums (env.getEnumName e)
      = some { name := k, values := e.values.map Prod.snd } :=
  foldl_recordInsert_lookup (fun p : String × CodeGenEnum => env.getEnumName p.2)
    (fun p => ({ name := p.1, values := p.2.values.map Prod.snd } : JSONSchemaEnum))
    env.enumMap [] (k, e) hmem hnodup

/-- Concrete instance of C6 with a display name differing from the key. -/
theorem enums_keyed_by_display_name_witness :
    recordGet (generateMetaData wEnv6).enums "color_enumDisp"
      = some { name := "ColorKey", values := ["red", "blue"] } :=
  enums_keyed_by_display_name wEnv6 "ColorKey" wEnum (List.Mem.head _) (by decide)

/-- C7: for the typescript and javascript targets the emitted text embeds
exactly the JSON serialization of the document built by generateMetaData,
and parsing that embedded JSON yields exactly that document (serialization
followed by parsing is the identity on the built document). -/
theorem metadata_json_roundtrip (env : VisitorEnv) :
    generateTypeScriptMetaData env
      = "import { Schema } from \"@aws-amplify/datastore\";\n\nexport const schema: Schema = "
        ++ Json.render (schemaToJson (generateMetaData env)) ++ ";" ∧
    generateJavaScriptMetaData env
      = "export const schema = " ++ Json.render (schemaToJson (generateMetaData env)) ++ ";" ∧
    parseJson (Json.render (schemaToJson (generateMetaData env)))
      = some (schemaToJson (generateMetaData env)) :=
  ⟨rfl, rfl, parseJson_render _⟩

/-- C8: the typeDeclaration target produces a fixed three line stub (import
line, blank line, declaration line) that does not depend on the model and
enum registries at all. -/
theorem generateTypeDeclaration_fixed (env : VisitorEnv) :
    generate "typeDeclaration" env = Except.ok
      "import { Schema } from '@aws-amplify/datastore';\n\nexport declare const schema: Schema;" ∧
    generate "typeDeclaration" env = Except.ok generateTypeDeclaration ∧
    (∀ env2 : VisitorEnv, generate "typeDeclaration" env = generate "typeDeclaration" env2) :=
  ⟨rfl, rfl, fun _ => rfl⟩

/-- C9: a falsy metadataTarget option (absent, or the empty string, the only
falsy values of a string typed option) resolves to javascript, and generate
then returns the untyped module output rather than an error. -/
theorem metadataTarget_falsy_javascript :
    resolveMetadataTarget (some "") = "javascript" ∧
    resolveMetadataTarget none = "javascript" ∧
    ∀ env : VisitorEnv,
      generate (resolveMetadataTarget (some "")) env
        = Except.ok (generateJavaScriptMetaData env) :=
  ⟨rfl, rfl, fun _ => rfl⟩

/-- C10: every emitted field entry carries an attributes key, and a field
without relation information gets the empty attribute list rather than a
missing key; the serialized field object of every field of every model in
the document contains the attributes member. -/
theorem field_attributes_always_present (env : VisitorEnv) (f : CodeGenField)
    (hno : f.connectionInfo = none) :
    generateFieldAttributes env f = [] ∧
    (fieldEntry env f).attributes = [] ∧
    (∀ fe : JSONModelField, ∃ l, fieldToJson fe = Json.obj l ∧
      ("attributes", Json.arr (fe.attributes.map attributeToJson)) ∈ l) ∧
    (∀ p ∈ (generateMetaData env).models, ∀ q ∈ p.2.fields,
      ∃ l, fieldToJson q.2 = Json.obj l ∧
        ("attributes", Json.arr (q.2.attributes.map attributeToJson)) ∈ l) := by
  refine ⟨?_, ?_, ?_, ?_⟩
  · simp [generateFieldAttributes, hno]
  · simp [fieldEntry, generateFieldAttributes, hno]
  · intro fe
    exact ⟨_, rfl, by simp⟩
  · intro p _ q _
    exact ⟨_, rfl, by simp⟩

/-- Concrete instance of C10 for a plain scalar field. -/
theorem field_attributes_always_present_witness :
    generateFieldAttributes baseEnv wPlainField = [] ∧
    (fieldEntry baseEnv wPlainField).attributes = [] := by
  have h := field_attributes_always_present baseEnv wPlainField rfl
  exact ⟨h.1, h.2.1⟩

end AmplifyJSONVisitor
